import Mathlib

/-!
Verification of the ARTEK homepage static-site pre-rendering pipeline
(`scripts/utils/prerender-utility/prerender.js`).

The script expands a (route × locale × theme) cross-product into render
tasks, drives a headless browser over them under a concurrency limit,
writes one HTML file per task at a derived output path, and generates
`sitemap.xml` / `robots.txt`.  The development below is a shallow
embedding of the pure parts of that script: path derivation, sitemap
generation, configuration defaulting, the post-capture phase of a render
task, the exit-code aggregation of `main`, and an operational model of
the bounded-concurrency scheduler.
-/

namespace Prerender

/-- The `playwright` block of `config.yaml` (`headless`, `concurrency`).
`none` models an absent key (JS `undefined`). -/
structure PlaywrightSettings where
  headless : Option Bool := none
  concurrency : Option Nat := none
deriving Repr, DecidableEq

/-- The configuration record assembled by `loadConfig` (the `Config`
typedef at lines 61-78 of `prerender.js`): pipeline settings merged with
the route list.  Optional fields model YAML keys that may be absent. -/
structure Config where
  production_url : String := ""
  preview_port : Nat := 0
  default_locale : String := ""
  default_theme : String := ""
  locales : List String := []
  themes : List String := []
  routes : List String := []
  exclude_from_sitemap : Option (List String) := none
  playwright : Option PlaywrightSettings := none
  page_load_timeout : Nat := 0
  wait_for_ready_timeout : Nat := 0
  network_idle_timeout : Nat := 0
  additional_wait : Nat := 0
deriving Repr, DecidableEq

/-! ## Node's posix `path.join`, modelled at the segment level.

`prerenderRoute` derives its output path with `join(DIST_DIR, rel)`
(line 180): posix `join` concatenates its non-empty arguments with `/`
and then normalizes the result — collapsing repeated separators,
dropping `.` segments and resolving `..` segments (above the root they
are kept for a relative path and dropped for an absolute one), keeping
one leading `/` for an absolute path and a trailing `/` when the
joined string ended with one. -/

/-- JS `String.prototype.split('/')`: the (possibly empty) fragments of
the string between the occurrences of `/`. -/
def splitSlash (l : List Char) : List (List Char) :=
  match l with
  | [] => [[]]
  | c :: rest =>
    match splitSlash rest with
    | [] => [[]]
    | s :: ss => if c = '/' then [] :: s :: ss else (c :: s) :: ss

/-- JS `Array.prototype.join('/')`: the segments glued back with `/`. -/
def joinSegs : List (List Char) → List Char
  | [] => []
  | [s] => s
  | s :: rest => s ++ '/' :: joinSegs rest

/-- A path segment with no special meaning for normalization:
non-empty and neither `.` nor `..`. -/
def plainSeg (seg : List Char) : Prop :=
  seg ≠ [] ∧ seg ≠ ['.'] ∧ seg ≠ ['.', '.']

instance plainSeg_decidable (seg : List Char) : Decidable (plainSeg seg) := by
  unfold plainSeg
  infer_instance

/-- One segment step of Node's `normalizeString`: skip empty and `.`
segments; on `..` pop the previous segment, or above the root keep the
`..` only when `allowUp` (a relative path); otherwise push. -/
def normStep (allowUp : Bool) (stack : List (List Char)) (seg : List Char) :
    List (List Char) :=
  if seg = [] ∨ seg = ['.'] then stack
  else if seg = ['.', '.'] then
    if stack = [] then (if allowUp then [seg] else [])
    else if stack.getLast? = some ['.', '.'] then
      (if allowUp then stack ++ [seg] else stack)
    else stack.dropLast
  else stack ++ [seg]

/-- The normalized segment list of a path split at `/`. -/
def normSegsList (allowUp : Bool) (segs : List (List Char)) : List (List Char) :=
  segs.foldl (normStep allowUp) []

/-- Node `isAbsolute` for posix: the path begins with `/`. -/
def isAbsolutePath (p : String) : Bool :=
  p.data.head? = some '/'

/-- Whether the path ends with a separator (Node's `trailingSeparator`
flag in `normalize`). -/
def hasTrailingSep (p : String) : Bool :=
  p.data.getLast? = some '/'

/-- Node posix `path.normalize`. -/
def jsNormalize (p : String) : String :=
  if p.data = [] then "."
  else
    if joinSegs (normSegsList (!isAbsolutePath p) (splitSlash p.data)) = [] then
      (if isAbsolutePath p then "/"
       else if hasTrailingSep p then "./" else ".")
    else
      String.mk ((if isAbsolutePath p then ['/'] else []) ++
        joinSegs (normSegsList (!isAbsolutePath p) (splitSlash p.data)) ++
        (if hasTrailingSep p then ['/'] else []))

/-- Node posix `path.join` with two arguments: empty arguments are
skipped, the rest are glued with `/` and the result normalized. -/
def joinPaths (a b : String) : String :=
  if a = "" then (if b = "" then "." else jsNormalize b)
  else if b = "" then jsNormalize a
  else jsNormalize (a ++ "/" ++ b)

/-! ## Output path derivation (`prerenderRoute`, lines 177-180) -/

/-- `route.replace(/^\//, '')` (line 177): remove one leading `/` if
present. -/
def stripLeadingSlash (r : String) : String :=
  if r.data.head? = some '/' then String.mk r.data.tail else r

/-- Line 177: `route === '/' ? 'index' : route.replace(/^\//, '') + '/index'`. -/
def outputFile (route : String) : String :=
  if route = "/" then "index" else stripLeadingSlash route ++ "/index"

/-- Line 178: `theme === config.default_theme ? '' : '.' + theme`. -/
def themeSuffix (cfg : Config) (theme : String) : String :=
  if theme = cfg.default_theme then "" else "." ++ theme

/-- Line 179: `locale === config.default_locale ? '' : '.' + locale`. -/
def localeSuffix (cfg : Config) (locale : String) : String :=
  if locale = cfg.default_locale then "" else "." ++ locale

/-- The output file path relative to `DIST_DIR` (line 180):
`${outputFile}${themeSuffix}${localeSuffix}.html`. -/
def outputRelPath (cfg : Config) (route locale theme : String) : String :=
  outputFile route ++ themeSuffix cfg theme ++ localeSuffix cfg locale ++ ".html"

/-- Line 180: `join(DIST_DIR, rel)` — posix join of the distribution
directory and the derived relative path, normalization included. -/
def outputPath (distDir : String) (cfg : Config) (route locale theme : String) : String :=
  joinPaths distDir (outputRelPath cfg route locale theme)

/-! ## The spec's output-path formula (spec §3), written from its words,
to be compared with the source-derived `outputPath`. -/

/-- Spec §3: base segment = `"index"` if `r == "/"` else `r` with its
leading `/` stripped, suffixed with `/index`. -/
def specBaseSegment (r : String) : String :=
  if r = "/" then "index"
  else (if r.data.head? = some '/' then r.drop 1 else r) ++ "/index"

/-- Spec §3: the final relative path `{base}{themeSuffix}{localeSuffix}.html`
joined under the output root. -/
def specOutputPath (distDir : String) (cfg : Config) (r l t : String) : String :=
  joinPaths distDir
    (specBaseSegment r ++
      (if t = cfg.default_theme then "" else "." ++ t) ++
      (if l = cfg.default_locale then "" else "." ++ l) ++ ".html")

theorem stripLeadingSlash_eq_drop (r : String) :
    stripLeadingSlash r = if r.data.head? = some '/' then r.drop 1 else r := by
  rw [stripLeadingSlash, String.drop_eq, List.drop_one]

/-- Claim C2: for every route, locale and theme the code's output path
derivation coincides with the spec's formula: base segment `"index"` for
the root route, otherwise the route with its leading slash stripped plus
`/index`; a `.theme` suffix unless the theme is the default; a `.locale`
suffix unless the locale is the default; all joined under the output
root as `{base}{themeSuffix}{localeSuffix}.html`. -/
theorem outputPath_eq_spec (distDir : String) (cfg : Config) (r l t : String) :
    outputPath distDir cfg r l t = specOutputPath distDir cfg r l t := by
  unfold outputPath specOutputPath outputRelPath outputFile specBaseSegment
    themeSuffix localeSuffix
  rw [stripLeadingSlash_eq_drop]

/-! ## Sitemap priority and change frequency (lines 349-367) -/

/-- Path depth as computed at lines 351 and 364:
`route.split('/').filter(Boolean).length`, the number of non-empty
path segments (`filter(Boolean)` drops the empty strings). -/
def routeDepth (route : String) : Nat :=
  ((splitSlash route.data).filter (fun s => s ≠ [])).length

/-- `calculatePriority` (lines 349-355). -/
def calculatePriority (route : String) : String :=
  if route = "/" then "1.0"
  else if routeDepth route = 1 then "0.8"
  else if routeDepth route = 2 then "0.6"
  else "0.4"

/-- `calculateChangeFreq` (lines 362-367). -/
def calculateChangeFreq (route : String) : String :=
  if route = "/" then "weekly"
  else if routeDepth route ≤ 2 then "monthly"
  else "yearly"

/-- The spec's depth table (§4.5), priority column: root → 1.0,
depth 1 → 0.8, depth 2 → 0.6, depth ≥ 3 → 0.4. -/
def specPriorityTable (isRoot : Bool) (depth : Nat) : String :=
  if isRoot then "1.0"
  else if depth = 1 then "0.8"
  else if depth = 2 then "0.6"
  else "0.4"

/-- The spec's depth table (§4.5), change-frequency column: root →
weekly, depth 1 → monthly, depth 2 → monthly, depth ≥ 3 → yearly. -/
def specChangeFreqTable (isRoot : Bool) (depth : Nat) : String :=
  if isRoot then "weekly"
  else if depth = 1 then "monthly"
  else if depth = 2 then "monthly"
  else "yearly"

/-- Claim C7: over the table's domain (the root route, or any route of
depth ≥ 1) the code's priority and change-frequency functions agree
with the spec's depth table: root → 1.0/weekly, depth 1 → 0.8/monthly,
depth 2 → 0.6/monthly, depth ≥ 3 → 0.4/yearly, as functions of the
number of non-empty path segments. -/
theorem sitemap_depth_table (route : String)
    (h : route = "/" ∨ 1 ≤ routeDepth route) :
    calculatePriority route = specPriorityTable (route = "/") (routeDepth route) ∧
    calculateChangeFreq route = specChangeFreqTable (route = "/") (routeDepth route) := by
  by_cases hr : route = "/"
  · simp [calculatePriority, calculateChangeFreq, specPriorityTable, specChangeFreqTable, hr]
  · have hd : 1 ≤ routeDepth route := h.resolve_left hr
    rcases Nat.lt_or_ge (routeDepth route) 3 with h3 | h3
    · have h12 : routeDepth route = 1 ∨ routeDepth route = 2 := by omega
      rcases h12 with h1 | h1 <;>
        simp [calculatePriority, calculateChangeFreq, specPriorityTable,
          specChangeFreqTable, hr, h1]
    · have h1 : routeDepth route ≠ 1 := by omega
      have h2 : routeDepth route ≠ 2 := by omega
      have hle : ¬ routeDepth route ≤ 2 := by omega
      simp [calculatePriority, calculateChangeFreq, specPriorityTable,
        specChangeFreqTable, hr, h1, h2, hle]

/-- Witness for C7 at the depth-2 route `/a/b`. -/
theorem sitemap_depth_table_witness :
    calculatePriority "/a/b" = specPriorityTable ("/a/b" = "/") (routeDepth "/a/b") ∧
    calculateChangeFreq "/a/b" = specChangeFreqTable ("/a/b" = "/") (routeDepth "/a/b") :=
  sitemap_depth_table "/a/b" (Or.inr (by decide))

/-! ## Playwright option defaulting (`prerenderAll`, lines 296-312) -/

/-- Line 297: `config.playwright?.headless ?? false` — optional chaining
then nullish coalescing. -/
def headlessOf (cfg : Config) : Bool :=
  (cfg.playwright.bind (fun p => p.headless)).getD false

/-- Line 309: `config.playwright?.concurrency || 5` — optional chaining
then `||`, which also replaces the falsy value `0`. -/
def concurrencyOf (cfg : Config) : Nat :=
  match cfg.playwright.bind (fun p => p.concurrency) with
  | none => 5
  | some n => if n = 0 then 5 else n

/-- Claim C10: omitting the whole `playwright` block, or the `headless`
key, launches the browser with `headless = false`; omitting the
`concurrency` key, or giving the falsy value `0`, yields a concurrency
ceiling of `5`; none of these cases is an error. -/
theorem playwright_defaults (cfg : Config) :
    (cfg.playwright = none → headlessOf cfg = false ∧ concurrencyOf cfg = 5) ∧
    (∀ p, cfg.playwright = some p →
      (p.headless = none → headlessOf cfg = false) ∧
      (p.concurrency = none ∨ p.concurrency = some 0 → concurrencyOf cfg = 5)) := by
  constructor
  · intro h
    simp [headlessOf, concurrencyOf, h]
  · intro p hp
    constructor
    · intro hh
      simp [headlessOf, hp, hh]
    · rintro (hc | hc) <;> simp [concurrencyOf, hp, hc]

/-- Witness for C10: a configuration with no `playwright` block. -/
theorem playwright_defaults_witness :
    headlessOf { playwright := none } = false ∧ concurrencyOf { playwright := none } = 5 :=
  (playwright_defaults { playwright := none }).1 rfl

/-! ## Preload hint injection (`prerenderRoute`, lines 236-257) -/

/-- The stylesheet preload tag pushed at line 241. -/
def styleHintTag (href : String) : String :=
  "  <link rel=\"preload\" href=\"" ++ href ++ "\" as=\"style\" crossorigin>"

/-- The script module-preload tag pushed at line 248. -/
def moduleHintTag (href : String) : String :=
  "  <link rel=\"modulepreload\" href=\"" ++ href ++ "\" crossorigin>"

/-- The `preloadHints` array built at lines 236-250: one stylesheet tag
per captured CSS path, then one module-preload tag per captured JS
chunk path. -/
def preloadHintTags (css js : List String) : List String :=
  css.map styleHintTag ++ js.map moduleHintTag

/-- JS `String.prototype.replace` with a plain-string pattern, on
character lists: replace the first occurrence of `pat` by `rep`, or
return the list unchanged when `pat` does not occur. -/
def replaceFirstList (l pat rep : List Char) : List Char :=
  match l with
  | [] => if pat = [] then rep else []
  | c :: rest =>
    if pat <+: (c :: rest) then rep ++ (c :: rest).drop pat.length
    else c :: replaceFirstList rest pat rep

/-- JS `html.replace(pat, rep)` for a plain-string `pat` (line 254
replaces only the first occurrence of `'</head>'`). -/
def jsReplaceFirst (s pat rep : String) : String :=
  String.mk (replaceFirstList s.data pat.data rep.data)

/-- Lines 253-254: when there is at least one hint, splice
`` `\n${preloadHints.join('\n')}\n  </head>` `` over the first
`</head>`. -/
def injectPreloads (css js : List String) (html : String) : String :=
  let hints := preloadHintTags css js
  if hints = [] then html
  else jsReplaceFirst html "</head>"
    ("\n" ++ String.intercalate "\n" hints ++ "\n  </head>")

theorem replaceFirstList_at_first_occurrence (pat : List Char) (hp : pat ≠ [])
    (rep : List Char) :
    ∀ pre post, (∀ i < pre.length, ¬ pat <+: ((pre ++ pat ++ post).drop i)) →
      replaceFirstList (pre ++ pat ++ post) pat rep = pre ++ rep ++ post := by
  intro pre
  induction pre with
  | nil =>
    intro post _
    cases hpat : pat with
    | nil => exact absurd hpat hp
    | cons c cs =>
      subst hpat
      simp only [List.nil_append, List.cons_append, replaceFirstList, List.append_eq]
      rw [if_pos (by rw [← List.cons_append]; exact List.prefix_append _ _)]
      rw [← List.cons_append, List.drop_left]
  | cons c pre ih =>
    intro post hfirst
    have h0 : ¬ pat <+: (c :: (pre ++ pat ++ post)) := by
      have := hfirst 0 (Nat.succ_pos _)
      simpa using this
    have hrest : ∀ i < pre.length, ¬ pat <+: ((pre ++ pat ++ post).drop i) := by
      intro i hi
      have := hfirst (i + 1) (by simpa using Nat.succ_lt_succ hi)
      simpa [List.drop_succ_cons] using this
    simp only [List.cons_append, replaceFirstList, List.append_eq, if_neg h0,
      ih post hrest]

/-- Claim C8: when the hint set is non-empty and the captured document
contains a head-closing tag, the injected document is the original with
the synthesized hints — each stylesheet as a `preload`/`as="style"`
link, each script chunk as a `modulepreload` link, all with
`crossorigin` — inserted immediately before the first head-closing
tag (`pre` names everything before that first occurrence, `post`
everything after it). -/
theorem preload_injection (css js : List String) (pre post : String)
    (hne : preloadHintTags css js ≠ [])
    (hfirst : ∀ i < pre.data.length,
      ¬ ("</head>" : String).data <+: ((pre ++ "</head>" ++ post).data.drop i)) :
    injectPreloads css js (pre ++ "</head>" ++ post) =
      pre ++ "\n" ++
        String.intercalate "\n" (css.map styleHintTag ++ js.map moduleHintTag) ++
        "\n  " ++ "</head>" ++ post := by
  have hdata : (pre ++ "</head>" ++ post).data =
      pre.data ++ ("</head>" : String).data ++ post.data := by
    simp [String.data_append]
  unfold injectPreloads
  rw [if_neg hne]
  unfold jsReplaceFirst
  rw [hdata]
  rw [replaceFirstList_at_first_occurrence _ (by decide) _ pre.data post.data
    (by rw [← hdata]; exact hfirst)]
  apply String.ext
  simp [String.data_append, preloadHintTags]

/-- Witness for C8: one stylesheet and one script chunk injected into a
small document. -/
theorem preload_injection_witness :
    injectPreloads ["/assets/a.css"] ["/assets/b.js"]
        ("<html><head>" ++ "</head>" ++ "<body></body></html>") =
      "<html><head>" ++ "\n" ++
        String.intercalate "\n"
          (["/assets/a.css"].map styleHintTag ++ ["/assets/b.js"].map moduleHintTag) ++
        "\n  " ++ "</head>" ++ "<body></body></html>" :=
  preload_injection ["/assets/a.css"] ["/assets/b.js"] "<html><head>"
    "<body></body></html>" (by decide) (by decide)

/-! ## The post-capture phase of a render task (`prerenderRoute`,
lines 228-277) -/

/-- Result of one render task: whether it is reported successful, and
the file write it performs, if any (path and contents). -/
structure RenderOutcome where
  success : Bool
  written : Option (String × String)
deriving Repr, DecidableEq

/-- The post-capture phase of `prerenderRoute`: the captured document
`html` is rejected when `html.length < 1000` (lines 230-233, `return
false` before any write); otherwise preload hints are injected (lines
236-257), the document is reformatted (line 261, `prettier.format`,
an external formatter passed here as `beautify`) and written at the
derived output path (lines 269-274), and the task reports success. -/
def finishRender (beautify : String → String) (distDir : String) (cfg : Config)
    (route locale theme : String) (css js : List String) (html : String) : RenderOutcome :=
  if html.length < 1000 then ⟨false, none⟩
  else
    ⟨true, some (outputPath distDir cfg route locale theme,
      beautify (injectPreloads css js html))⟩

/-- Claim C5: a task whose captured serialized document is shorter than
the minimum-content threshold (1000) is reported as a failure and
writes no output file. -/
theorem short_document_fails_unwritten (beautify : String → String) (distDir : String)
    (cfg : Config) (route locale theme : String) (css js : List String) (html : String)
    (h : html.length < 1000) :
    (finishRender beautify distDir cfg route locale theme css js html).success = false ∧
    (finishRender beautify distDir cfg route locale theme css js html).written = none := by
  simp [finishRender, h]

/-- Witness for C5: an empty captured document fails and is not
written. -/
theorem short_document_fails_unwritten_witness :
    (finishRender id "dist" {} "/" "tr" "light" [] [] "<html></html>").success = false ∧
    (finishRender id "dist" {} "/" "tr" "light" [] [] "<html></html>").written = none :=
  short_document_fails_unwritten id "dist" {} "/" "tr" "light" [] [] "<html></html>"
    (by decide)

/-! ## Sitemap generation (`generateSitemap`, lines 373-400) -/

/-- One `<url>` element of the sitemap (lines 380-387). -/
structure UrlEntry where
  loc : String
  lastmod : String
  changefreq : String
  priority : String
deriving Repr, DecidableEq

/-- `config.production_url.replace(/\/$/, '')` (line 375): remove one
trailing slash if present. -/
def stripTrailingSlash (u : String) : String :=
  if u.data.getLast? = some '/' then String.mk u.data.dropLast else u

/-- `config.exclude_from_sitemap || []` (line 376). -/
def excludedRoutes (cfg : Config) : List String :=
  cfg.exclude_from_sitemap.getD []

/-- The `<loc>` of a route (line 379):
`route === '/' ? productionUrl + '/' : productionUrl + route`. -/
def urlLoc (cfg : Config) (route : String) : String :=
  if route = "/" then stripTrailingSlash cfg.production_url ++ "/"
  else stripTrailingSlash cfg.production_url ++ route

/-- The `<url>` element built for one route (lines 380-387), with
`today` the ISO date computed at line 374. -/
def urlEntry (cfg : Config) (today : String) (route : String) : UrlEntry :=
  ⟨urlLoc cfg route, today, calculateChangeFreq route, calculatePriority route⟩

/-- The `<url>` elements emitted by `generateSitemap` (line 378): the
routes not in the exclusion list, mapped to their elements. -/
def sitemapEntries (cfg : Config) (today : String) : List UrlEntry :=
  (cfg.routes.filter (fun r => !decide (r ∈ excludedRoutes cfg))).map
    (urlEntry cfg today)

theorem string_append_left_cancel (a b c : String) (h : a ++ b = a ++ c) : b = c := by
  apply String.ext
  have hd := congrArg String.data h
  simp only [String.data_append] at hd
  exact List.append_cancel_left hd

theorem urlEntry_injective (cfg : Config) (today : String) :
    Function.Injective (urlEntry cfg today) := by
  intro r1 r2 h
  have hloc : urlLoc cfg r1 = urlLoc cfg r2 := congrArg UrlEntry.loc h
  unfold urlLoc at hloc
  by_cases h1 : r1 = "/" <;> by_cases h2 : r2 = "/"
  · rw [h1, h2]
  · rw [if_pos h1, if_neg h2] at hloc
    exact absurd (string_append_left_cancel _ _ _ hloc).symm h2
  · rw [if_neg h1, if_pos h2] at hloc
    exact absurd (string_append_left_cancel _ _ _ hloc) h1
  · rw [if_neg h1, if_neg h2] at hloc
    exact string_append_left_cancel _ _ _ hloc

/-- Claim C6 (amended): an excluded route contributes no `<url>` entry;
and provided the configured route list has no duplicate entries, every
non-excluded configured route contributes exactly one entry. -/
theorem sitemap_excludes_and_includes (cfg : Config) (today : String) (r : String) :
    (r ∈ excludedRoutes cfg → (sitemapEntries cfg today).count (urlEntry cfg today r) = 0) ∧
    (r ∈ cfg.routes → r ∉ excludedRoutes cfg → cfg.routes.Nodup →
      (sitemapEntries cfg today).count (urlEntry cfg today r) = 1) := by
  constructor
  · intro hex
    rw [List.count_eq_zero]
    intro hmem
    rcases List.mem_map.mp hmem with ⟨r', hr', he⟩
    have : r' = r := urlEntry_injective cfg today he
    subst this
    have := (List.mem_filter.mp hr').2
    simp [hex] at this
  · intro hmem hnex hnd
    unfold sitemapEntries
    rw [List.count_map_of_injective _ _ (urlEntry_injective cfg today)]
    rw [List.count_filter (by simp [hnex])]
    exact List.count_eq_one_of_mem hnd hmem

/-- A small concrete configuration used to instantiate claim theorems:
two routes (with `/about` excluded from the sitemap), two locales and
two themes. -/
def sampleCfg : Config :=
  { production_url := "https://artek.example",
    default_locale := "tr",
    default_theme := "light",
    locales := ["tr", "en"],
    themes := ["light", "dark"],
    routes := ["/", "/about"],
    exclude_from_sitemap := some ["/about"] }

/-- Witness for C6: routes `/` and `/about` with `/about` excluded —
the root route appears exactly once, the excluded route not at all. -/
theorem sitemap_excludes_and_includes_witness :
    (sitemapEntries sampleCfg "2025-10-12").count (urlEntry sampleCfg "2025-10-12" "/") = 1 ∧
    (sitemapEntries sampleCfg "2025-10-12").count (urlEntry sampleCfg "2025-10-12" "/about") = 0 :=
  ⟨(sitemap_excludes_and_includes sampleCfg "2025-10-12" "/").2
      (by decide) (by decide) (by decide),
   (sitemap_excludes_and_includes sampleCfg "2025-10-12" "/about").1 (by decide)⟩

/-- Counterexample for C6 as stated: with the duplicated route list
`["/a", "/a"]` and nothing excluded, the non-excluded route `/a` is
included twice, not exactly once. -/
theorem sitemap_exactly_once_counterexample :
    ¬ (∀ (cfg : Config) (today r : String), r ∈ cfg.routes → r ∉ excludedRoutes cfg →
        (sitemapEntries cfg today).count (urlEntry cfg today r) = 1) := by
  intro h
  have := h { production_url := "https://u.example", routes := ["/a", "/a"] }
    "2025-10-12" "/a" (by decide) (by decide)
  exact absurd this (by decide)

/-! ## Configuration assembly (`loadConfig`, lines 87-101) -/

/-- The parse of `routes.yaml` (line 94): a document whose `routes` key
may be absent (`none` models JS `undefined`). -/
structure RoutesData where
  routes : Option (List String) := none
deriving Repr, DecidableEq

/-- `loadConfig` (lines 87-101).  A thrown read or parse error of either
YAML source is modelled as `Except.error`; `loadConfig` has no handler,
so it propagates (fatal).  On success the settings object is spread and
its `routes` key set to `routesData.routes || []` (line 99). -/
def loadConfig (configSrc : Except String Config) (routesSrc : Except String RoutesData) :
    Except String Config :=
  match configSrc with
  | Except.error e => Except.error e
  | Except.ok config =>
    match routesSrc with
    | Except.error e => Except.error e
    | Except.ok routesData =>
      Except.ok { config with routes := routesData.routes.getD [] }

/-- Claim C4 (amended): `loadConfig` fails exactly when reading or
parsing either source fails, and a present route list is passed through
unchanged; however its error behaviour is only that — a routes file
that parses without a `routes` key is default-filled with the empty
route list (see the counterexample), so the pipeline can run against an
empty route set. -/
theorem loadConfig_fatality (configSrc : Except String Config)
    (routesSrc : Except String RoutesData) :
    ((∃ e, loadConfig configSrc routesSrc = Except.error e) ↔
      ((∃ e, configSrc = Except.error e) ∨ (∃ e, routesSrc = Except.error e))) ∧
    (∀ c rs, configSrc = Except.ok c → routesSrc = Except.ok { routes := some rs } →
      loadConfig configSrc routesSrc = Except.ok { c with routes := rs }) := by
  constructor
  · cases configSrc with
    | error e => simp [loadConfig]
    | ok c =>
      cases routesSrc with
      | error e => simp [loadConfig]
      | ok rd => simp [loadConfig]
  · intro c rs hc hr
    rw [hc, hr]
    simp [loadConfig]

/-- Counterexample for C4 as stated: a routes source that parses to a
document with no `routes` key is not rejected — `loadConfig` succeeds
and default-fills the route list with `[]`. -/
theorem loadConfig_default_fill_counterexample :
    loadConfig (Except.ok { production_url := "https://u.example" })
        (Except.ok { routes := none }) =
      Except.ok { production_url := "https://u.example", routes := ([] : List String) } :=
  rfl

/-! ## Task expansion and exit code (`prerenderAll` lines 289-342,
`main` lines 424-498) -/

/-- The task list built at lines 315-322: the route × locale × theme
cross-product, route-major, then locale, then theme. -/
def taskList (cfg : Config) : List (String × String × String) :=
  cfg.routes.flatMap (fun route =>
    cfg.locales.flatMap (fun locale =>
      cfg.themes.map (fun theme => (route, locale, theme))))

theorem taskList_length (cfg : Config) :
    (taskList cfg).length = cfg.routes.length * cfg.locales.length * cfg.themes.length := by
  unfold taskList
  induction cfg.routes with
  | nil => simp
  | cons r rs ih =>
    simp only [List.flatMap_cons, List.length_append, ih, Nat.succ_mul]
    have hinner : ∀ (ls : List String),
        (ls.flatMap (fun locale => cfg.themes.map (fun theme => (r, locale, theme)))).length =
          ls.length * cfg.themes.length := by
      intro ls
      induction ls with
      | nil => simp
      | cons l ls ihl => simp [ihl, Nat.succ_mul, Nat.add_comm]
    rw [hinner, Nat.add_comm, List.length_cons]
    ring

/-- The environment `main` runs in: the result of each effectful step
of the pipeline.  `configResult = none` models a `loadConfig` throw;
`taskOk` is the per-task success oracle (in `prerenderRoute` every
per-task exception is already converted to `false` at lines 278-281). -/
structure MainEnv where
  configResult : Option Config
  distExists : Bool
  workerBuildOk : Bool
  artifactsOk : Bool
  serverStartOk : Bool
  browserLaunchOk : Bool
  taskOk : String → String → String → Bool

/-- `prerenderAll`'s return value (lines 325-341):
`results.filter((success) => success).length`, the number of successful
renders over the full task list. -/
def successCount (env : MainEnv) (cfg : Config) : Nat :=
  ((taskList cfg).map (fun task => env.taskOk task.1 task.2.1 task.2.2)).count true

/-- `main` (lines 424-490): `false` on any fatal error — a `loadConfig`
throw (caught at lines 479-485), a missing `dist/` (lines 435-438), a
preview-server start failure or a browser launch failure (both throw
into the same catch) — otherwise the comparison
`successCount === total` of lines 471-478.  The worker build (lines
441-457) and the sitemap/robots generation (lines 459-465) have their
own inner catch that only logs a warning, so `workerBuildOk` and
`artifactsOk` do not enter the result. -/
def mainSuccess (env : MainEnv) : Bool :=
  match env.configResult with
  | none => false
  | some cfg =>
    if !env.distExists then false
    else if !env.serverStartOk then false
    else if !env.browserLaunchOk then false
    else successCount env cfg ==
      cfg.routes.length * cfg.locales.length * cfg.themes.length

/-- Lines 493-498: `process.exit(success ? 0 : 1)`, and `1` from the
final catch. -/
def mainExitCode (env : MainEnv) : Nat :=
  if mainSuccess env then 0 else 1

theorem successCount_eq_total_iff (env : MainEnv) (cfg : Config) :
    successCount env cfg = cfg.routes.length * cfg.locales.length * cfg.themes.length ↔
      ∀ task ∈ taskList cfg, env.taskOk task.1 task.2.1 task.2.2 = true := by
  unfold successCount
  rw [← taskList_length cfg,
    ← List.length_map (taskList cfg) (fun task => env.taskOk task.1 task.2.1 task.2.2),
    List.count_eq_length]
  constructor
  · intro h task ht
    exact (h _ (List.mem_map_of_mem _ ht)).symm
  · intro h b hb
    rcases List.mem_map.mp hb with ⟨task, ht, rfl⟩
    exact (h task ht).symm

/-- Claim C3: the process exit code is `0` exactly when the
configuration loaded, `dist/` existed, the preview server and the
browser started, and every task of the full route × locale × theme
cross-product succeeded; it is `1` otherwise (the only other value
`mainExitCode` takes), in particular on any fatal configuration or
server-start error. -/
theorem exit_code_zero_iff_all_tasks (env : MainEnv) :
    mainExitCode env = 0 ↔
      ∃ cfg, env.configResult = some cfg ∧ env.distExists = true ∧
        env.serverStartOk = true ∧ env.browserLaunchOk = true ∧
        ∀ task ∈ taskList cfg, env.taskOk task.1 task.2.1 task.2.2 = true := by
  have hcode : mainExitCode env = 0 ↔ mainSuccess env = true := by
    unfold mainExitCode
    cases h : mainSuccess env <;> simp [h]
  rw [hcode]
  unfold mainSuccess
  cases hc : env.configResult with
  | none => simp
  | some cfg =>
    cases hd : env.distExists <;> cases hs : env.serverStartOk <;>
      cases hb : env.browserLaunchOk <;>
      simp [hd, hs, hb, successCount_eq_total_iff env cfg]

theorem mainExitCode_zero_or_one (env : MainEnv) :
    mainExitCode env = 0 ∨ mainExitCode env = 1 := by
  unfold mainExitCode
  cases mainSuccess env
  · exact Or.inr rfl
  · exact Or.inl rfl

/-! ## Bounded-concurrency scheduling (`prerenderAll`, lines 308-336) -/

/-- Modelled from the spec: the admission gate of the `p-limit`
dependency (`pLimit(concurrency)` at line 310 — the library's code is
not part of this repository).  Spec §4.3: the scheduler state of the
dispatched task set; all tasks start queued, none in flight. -/
structure SchedState where
  queued : Nat
  inFlight : Nat
  finished : Nat
deriving Repr, DecidableEq

/-- Modelled from the spec: one transition of the counting admission
gate (§4.3): `start` admits a queued task only while strictly fewer
than `limit` are in flight; `finish` completes an in-flight task,
freeing a slot that a subsequent `start` may take (completion admits
the next queued task). -/
inductive SchedStep (limit : Nat) : SchedState → SchedState → Prop
  | start (s : SchedState) (hq : 0 < s.queued) (hf : s.inFlight < limit) :
      SchedStep limit s ⟨s.queued - 1, s.inFlight + 1, s.finished⟩
  | finish (s : SchedState) (hf : 0 < s.inFlight) :
      SchedStep limit s ⟨s.queued, s.inFlight - 1, s.finished + 1⟩

/-- The scheduler states reachable once `prerenderAll` has dispatched
the whole task list (lines 325-336). -/
inductive SchedReachable (limit n : Nat) : SchedState → Prop
  | init : SchedReachable limit n ⟨n, 0, 0⟩
  | step {s s' : SchedState} : SchedReachable limit n s → SchedStep limit s s' →
      SchedReachable limit n s'

/-- Claim C9: with the full task list queued and the ceiling
`config.playwright?.concurrency || 5`, every reachable scheduler state
has at most the ceiling in flight — a task starts only while fewer
than the ceiling are in flight, and a completion frees the slot the
next queued task takes. -/
theorem concurrency_ceiling (cfg : Config) (s : SchedState)
    (h : SchedReachable (concurrencyOf cfg) (taskList cfg).length s) :
    s.inFlight ≤ concurrencyOf cfg := by
  induction h with
  | init => exact Nat.zero_le _
  | step hr hs ih =>
    cases hs with
    | start hq hf => exact hf
    | finish hf => exact Nat.le_trans (Nat.sub_le _ _) ih

/-- Witness for C9: under `sampleCfg` (8 tasks, ceiling 5) the state
reached by admitting one task respects the ceiling. -/
theorem concurrency_ceiling_witness :
    (⟨7, 1, 0⟩ : SchedState).inFlight ≤ concurrencyOf sampleCfg :=
  concurrency_ceiling sampleCfg ⟨7, 1, 0⟩
    (SchedReachable.step SchedReachable.init
      (SchedStep.start ⟨8, 0, 0⟩ (by decide) (by decide)))

/-! ## Injectivity of the output-path map (spec §3 invariant) -/

theorem last_sep_split {α : Type} (x : α) :
    ∀ (a c b d : List α), x ∉ b → x ∉ d → a ++ x :: b = c ++ x :: d → a = c ∧ b = d := by
  intro a
  induction a with
  | nil =>
    intro c b d hb hd h
    cases c with
    | nil =>
      simp only [List.nil_append, List.cons.injEq, true_and] at h
      exact ⟨rfl, h⟩
    | cons y c' =>
      simp only [List.nil_append, List.cons_append, List.cons.injEq] at h
      exact absurd (h.2 ▸ List.mem_append_right c' (List.mem_cons_self x d)) hb
  | cons y a' ih =>
    intro c b d hb hd h
    cases c with
    | nil =>
      simp only [List.nil_append, List.cons_append, List.cons.injEq] at h
      exact absurd (h.2 ▸ List.mem_append_right a' (List.mem_cons_self x b)) hd
    | cons z c' =>
      simp only [List.cons_append, List.cons.injEq] at h
      obtain ⟨hac, hbd⟩ := ih c' b d hb hd h.2
      exact ⟨by rw [h.1, hac], hbd⟩

theorem first_sep_split {α : Type} (x : α) :
    ∀ (a c b d : List α), x ∉ a → x ∉ c → a ++ x :: b = c ++ x :: d → a = c ∧ b = d := by
  intro a
  induction a with
  | nil =>
    intro c b d _ hc h
    cases c with
    | nil =>
      simp only [List.nil_append, List.cons.injEq, true_and] at h
      exact ⟨rfl, h⟩
    | cons z c' =>
      simp only [List.nil_append, List.cons_append, List.cons.injEq] at h
      exact absurd (h.1 ▸ List.mem_cons_self z c') hc
  | cons y a' ih =>
    intro c b d ha hc h
    cases c with
    | nil =>
      simp only [List.nil_append, List.cons_append, List.cons.injEq] at h
      exact absurd (h.1.symm ▸ List.mem_cons_self y a') ha
    | cons z c' =>
      simp only [List.cons_append, List.cons.injEq] at h
      have ha' : x ∉ a' := fun hmem => ha (List.mem_cons_of_mem y hmem)
      have hc' : x ∉ c' := fun hmem => hc (List.mem_cons_of_mem z hmem)
      obtain ⟨hac, hbd⟩ := ih c' b d ha' hc' h.2
      exact ⟨by rw [h.1, hac], hbd⟩

/-! ### Facts about `splitSlash`, `joinSegs` and the normalization -/

theorem splitSlash_cons_eq (c : Char) (rest s : List Char) (ss : List (List Char))
    (hs : splitSlash rest = s :: ss) :
    splitSlash (c :: rest) = if c = '/' then [] :: s :: ss else (c :: s) :: ss := by
  unfold splitSlash
  rw [hs]

theorem splitSlash_ne_nil (l : List Char) : splitSlash l ≠ [] := by
  induction l with
  | nil => simp [splitSlash]
  | cons c rest ih =>
    cases hs : splitSlash rest with
    | nil => exact absurd hs ih
    | cons s ss =>
      rw [splitSlash_cons_eq c rest s ss hs]
      split <;> simp

theorem splitSlash_slash_free (l : List Char) :
    ∀ seg ∈ splitSlash l, '/' ∉ seg := by
  induction l with
  | nil =>
    intro seg hseg
    simp only [splitSlash, List.mem_singleton] at hseg
    simp [hseg]
  | cons c rest ih =>
    intro seg hseg
    cases hs : splitSlash rest with
    | nil => exact absurd hs (splitSlash_ne_nil rest)
    | cons s ss =>
      rw [splitSlash_cons_eq c rest s ss hs] at hseg
      by_cases hc : c = '/'
      · rw [if_pos hc] at hseg
        rcases List.mem_cons.mp hseg with h | h
        · simp [h]
        · exact ih seg (by rw [hs]; exact h)
      · rw [if_neg hc] at hseg
        rcases List.mem_cons.mp hseg with h | h
        · subst h
          intro hmem
          rcases List.mem_cons.mp hmem with h' | h'
          · exact hc h'.symm
          · exact ih s (by rw [hs]; exact List.mem_cons_self s ss) h'
        · exact ih seg (by rw [hs]; exact List.mem_cons_of_mem s h)

theorem splitSlash_append_slash (d r : List Char) :
    splitSlash (d ++ '/' :: r) = splitSlash d ++ splitSlash r := by
  induction d with
  | nil =>
    rw [List.nil_append]
    cases hs : splitSlash r with
    | nil => exact absurd hs (splitSlash_ne_nil r)
    | cons s ss =>
      rw [splitSlash_cons_eq '/' r s ss hs, if_pos rfl]
      rfl
  | cons c d' ih =>
    show splitSlash (c :: (d' ++ '/' :: r)) = splitSlash (c :: d') ++ splitSlash r
    cases hs : splitSlash d' with
    | nil => exact absurd hs (splitSlash_ne_nil d')
    | cons s ss =>
      cases hr : splitSlash r with
      | nil => exact absurd hr (splitSlash_ne_nil r)
      | cons t ts =>
        have hds : splitSlash (d' ++ '/' :: r) = s :: (ss ++ t :: ts) := by
          rw [ih, hs, hr]
          rfl
        rw [splitSlash_cons_eq c _ _ _ hds, splitSlash_cons_eq c d' s ss hs]
        by_cases hc : c = '/' <;> simp [hc, hr]

theorem joinSegs_splitSlash (l : List Char) : joinSegs (splitSlash l) = l := by
  induction l with
  | nil => rfl
  | cons c rest ih =>
    cases hs : splitSlash rest with
    | nil => exact absurd hs (splitSlash_ne_nil rest)
    | cons s ss =>
      rw [hs] at ih
      rw [splitSlash_cons_eq c rest s ss hs]
      by_cases hc : c = '/'
      · subst hc
        rw [if_pos rfl]
        simp [joinSegs, ih]
      · rw [if_neg hc]
        cases ss with
        | nil =>
          simp only [joinSegs] at ih ⊢
          rw [ih]
        | cons u us =>
          simp only [joinSegs, List.cons_append] at ih ⊢
          rw [← ih]

theorem splitSlash_single (x : List Char) (hx : '/' ∉ x) : splitSlash x = [x] := by
  induction x with
  | nil => rfl
  | cons c rest ih =>
    have hc : c ≠ '/' := fun h => hx (by rw [← h]; exact List.mem_cons_self c rest)
    have hrest : '/' ∉ rest := fun h => hx (List.mem_cons_of_mem c h)
    cases hs : splitSlash rest with
    | nil => exact absurd hs (splitSlash_ne_nil rest)
    | cons s ss =>
      rw [splitSlash_cons_eq c rest s ss hs, if_neg hc]
      have h12 : s :: ss = [rest] := by rw [← hs, ih hrest]
      injection h12 with h1 h2
      rw [h1, h2]

theorem splitSlash_joinSegs (segs : List (List Char)) (hne : segs ≠ [])
    (hfree : ∀ s ∈ segs, '/' ∉ s) : splitSlash (joinSegs segs) = segs := by
  induction segs with
  | nil => exact absurd rfl hne
  | cons s rest ih =>
    cases rest with
    | nil =>
      show splitSlash (joinSegs [s]) = [s]
      exact splitSlash_single s (hfree s (List.mem_cons_self s []))
    | cons t ts =>
      have hs : '/' ∉ s := hfree s (List.mem_cons_self _ _)
      show splitSlash (s ++ '/' :: joinSegs (t :: ts)) = s :: t :: ts
      rw [splitSlash_append_slash, splitSlash_single s hs,
        ih (by simp) (fun x hx => hfree x (List.mem_cons_of_mem s hx))]
      rfl

theorem normStep_plain (u : Bool) (stack : List (List Char)) (seg : List Char)
    (h : plainSeg seg) : normStep u stack seg = stack ++ [seg] := by
  obtain ⟨h1, h2, h3⟩ := h
  unfold normStep
  rw [if_neg (by simp [h1, h2]), if_neg h3]

theorem foldl_normStep_plain (u : Bool) (segs : List (List Char)) :
    ∀ stack, (∀ seg ∈ segs, plainSeg seg) →
      List.foldl (normStep u) stack segs = stack ++ segs := by
  induction segs with
  | nil =>
    intro stack _
    simp
  | cons seg rest ih =>
    intro stack h
    rw [List.foldl_cons, normStep_plain u stack seg (h seg (List.mem_cons_self _ _)),
      ih (stack ++ [seg]) (fun x hx => h x (List.mem_cons_of_mem seg hx))]
    simp

theorem foldl_normStep_inv (u : Bool) (segs : List (List Char)) :
    ∀ stack, (∀ s ∈ stack, s ≠ [] ∧ '/' ∉ s) → (∀ s ∈ segs, '/' ∉ s) →
      ∀ s ∈ List.foldl (normStep u) stack segs, s ≠ [] ∧ '/' ∉ s := by
  induction segs with
  | nil =>
    intro stack hstack _ s hs
    exact hstack s hs
  | cons seg rest ih =>
    intro stack hstack hsegs
    rw [List.foldl_cons]
    refine ih (normStep u stack seg) ?_
      (fun x hx => hsegs x (List.mem_cons_of_mem seg hx))
    intro s hs
    unfold normStep at hs
    by_cases h1 : seg = [] ∨ seg = ['.']
    · rw [if_pos h1] at hs
      exact hstack s hs
    · rw [if_neg h1] at hs
      by_cases h2 : seg = ['.', '.']
      · rw [if_pos h2] at hs
        by_cases hnil : stack = []
        · rw [if_pos hnil] at hs
          cases u with
          | true =>
            rw [if_pos rfl] at hs
            rw [List.mem_singleton.mp hs, h2]
            exact ⟨by decide, by decide⟩
          | false =>
            rw [if_neg Bool.false_ne_true] at hs
            simp at hs
        · rw [if_neg hnil] at hs
          by_cases h3 : stack.getLast? = some ['.', '.']
          · rw [if_pos h3] at hs
            cases u with
            | true =>
              rw [if_pos rfl] at hs
              rcases List.mem_append.mp hs with h | h
              · exact hstack s h
              · rw [List.mem_singleton.mp h, h2]
                exact ⟨by decide, by decide⟩
            | false =>
              rw [if_neg Bool.false_ne_true] at hs
              exact hstack s hs
          · rw [if_neg h3] at hs
            exact hstack s ((List.dropLast_sublist stack).subset hs)
      · rw [if_neg h2] at hs
        rcases List.mem_append.mp hs with h | h
        · exact hstack s h
        · rw [List.mem_singleton.mp h]
          exact ⟨fun hnl => h1 (Or.inl hnl), hsegs seg (List.mem_cons_self _ _)⟩

theorem joinSegs_ne_nil (segs : List (List Char)) (hne : segs ≠ [])
    (h : ∀ s ∈ segs, s ≠ []) : joinSegs segs ≠ [] := by
  cases segs with
  | nil => exact absurd rfl hne
  | cons s rest =>
    cases rest with
    | nil =>
      show s ≠ []
      exact h s (List.mem_cons_self _ _)
    | cons t ts =>
      show s ++ '/' :: joinSegs (t :: ts) ≠ []
      simp

theorem getLast?_append_right {α : Type} (l₁ l₂ : List α) (h : l₂ ≠ []) :
    (l₁ ++ l₂).getLast? = l₂.getLast? := by
  rcases List.eq_nil_or_concat l₂ with hnil | ⟨init, a, hconcat⟩
  · exact absurd hnil h
  · rw [hconcat, List.concat_eq_append, ← List.append_assoc, List.getLast?_concat,
      List.getLast?_concat]

theorem plain_ne_nil (rel : String)
    (h : ∀ seg ∈ splitSlash rel.data, plainSeg seg) : rel.data ≠ [] := by
  intro hnil
  have hmem : [] ∈ splitSlash rel.data := by
    rw [hnil]
    simp [splitSlash]
  exact (h [] hmem).1 rfl

theorem plain_no_trailing (rel : String)
    (h : ∀ seg ∈ splitSlash rel.data, plainSeg seg) :
    rel.data.getLast? ≠ some '/' := by
  intro hlast
  rcases List.eq_nil_or_concat rel.data with hnil | ⟨init, a, hconcat⟩
  · rw [hnil] at hlast
    simp at hlast
  · rw [hconcat, List.concat_eq_append, List.getLast?_concat] at hlast
    have ha : a = '/' := Option.some.inj hlast
    have hmem : [] ∈ splitSlash rel.data := by
      rw [hconcat, List.concat_eq_append, ha,
        show init ++ ['/'] = init ++ '/' :: ([] : List Char) from rfl,
        splitSlash_append_slash]
      exact List.mem_append_right _ (by simp [splitSlash])
    exact (h [] hmem).1 rfl

/-- Under a non-trivial base directory, joining a relative path all of
whose segments are plain normalizes to the base's normalized segments
followed verbatim by the relative path's segments. -/
theorem jsNormalize_join_plain (d rel : String) (hd : d.data ≠ [])
    (hplain : ∀ seg ∈ splitSlash rel.data, plainSeg seg) :
    jsNormalize (d ++ "/" ++ rel) =
      String.mk ((if isAbsolutePath d = true then ['/'] else []) ++
        joinSegs (normSegsList (!isAbsolutePath d) (splitSlash d.data) ++
          splitSlash rel.data)) := by
  have hreld : rel.data ≠ [] := plain_ne_nil rel hplain
  have hdata : (d ++ "/" ++ rel).data = d.data ++ '/' :: rel.data := by
    simp only [String.data_append, List.append_assoc, List.singleton_append]
  have habs : isAbsolutePath (d ++ "/" ++ rel) = isAbsolutePath d := by
    unfold isAbsolutePath
    rw [hdata]
    cases hd' : d.data with
    | nil => exact absurd hd' hd
    | cons c cs => rfl
  have htrail : hasTrailingSep (d ++ "/" ++ rel) = false := by
    unfold hasTrailingSep
    rw [hdata, show d.data ++ '/' :: rel.data = (d.data ++ ['/']) ++ rel.data by
      rw [List.append_assoc, List.singleton_append]]
    rw [getLast?_append_right _ _ hreld]
    exact decide_eq_false (plain_no_trailing rel hplain)
  have hsplit : splitSlash (d ++ "/" ++ rel).data =
      splitSlash d.data ++ splitSlash rel.data := by
    rw [hdata]
    exact splitSlash_append_slash _ _
  have hnorm : normSegsList (!isAbsolutePath (d ++ "/" ++ rel))
      (splitSlash (d ++ "/" ++ rel).data) =
      normSegsList (!isAbsolutePath d) (splitSlash d.data) ++ splitSlash rel.data := by
    rw [habs, hsplit]
    unfold normSegsList
    rw [List.foldl_append]
    exact foldl_normStep_plain _ (splitSlash rel.data) _ hplain
  have hSD : ∀ s ∈ normSegsList (!isAbsolutePath d) (splitSlash d.data),
      s ≠ [] ∧ '/' ∉ s := by
    unfold normSegsList
    exact foldl_normStep_inv _ _ [] (by simp) (splitSlash_slash_free d.data)
  have hcore : joinSegs (normSegsList (!isAbsolutePath d) (splitSlash d.data) ++
      splitSlash rel.data) ≠ [] := by
    apply joinSegs_ne_nil
    · intro hnil
      exact splitSlash_ne_nil rel.data (List.append_eq_nil.mp hnil).2
    · intro s hs
      rcases List.mem_append.mp hs with h | h
      · exact (hSD s h).1
      · exact (hplain s h).1
  have hne : (d ++ "/" ++ rel).data ≠ [] := by
    rw [hdata]
    simp
  unfold jsNormalize
  rw [if_neg hne, hnorm, if_neg hcore, habs, htrail]
  simp

/-- Joining two relative paths with all-plain segments under the same
base directory is injective: the join-normalization cannot merge
them. -/
theorem joinPaths_cancel (d rel1 rel2 : String) (hd : d ≠ "")
    (h1 : ∀ seg ∈ splitSlash rel1.data, plainSeg seg)
    (h2 : ∀ seg ∈ splitSlash rel2.data, plainSeg seg)
    (heq : joinPaths d rel1 = joinPaths d rel2) : rel1 = rel2 := by
  have hd' : d.data ≠ [] := fun h => hd (String.ext h)
  have hne1 : rel1 ≠ "" := fun h => plain_ne_nil rel1 h1 (by rw [h])
  have hne2 : rel2 ≠ "" := fun h => plain_ne_nil rel2 h2 (by rw [h])
  unfold joinPaths at heq
  rw [if_neg hd, if_neg hne1, if_neg hd, if_neg hne2] at heq
  rw [jsNormalize_join_plain d rel1 hd' h1, jsNormalize_join_plain d rel2 hd' h2] at heq
  have hAB : (if isAbsolutePath d = true then ['/'] else []) ++
      joinSegs (normSegsList (!isAbsolutePath d) (splitSlash d.data) ++
        splitSlash rel1.data) =
      (if isAbsolutePath d = true then ['/'] else []) ++
      joinSegs (normSegsList (!isAbsolutePath d) (splitSlash d.data) ++
        splitSlash rel2.data) := congrArg String.data heq
  have hcore := List.append_cancel_left hAB
  have hSD : ∀ s ∈ normSegsList (!isAbsolutePath d) (splitSlash d.data),
      s ≠ [] ∧ '/' ∉ s := by
    unfold normSegsList
    exact foldl_normStep_inv _ _ [] (by simp) (splitSlash_slash_free d.data)
  have hfree1 : ∀ s ∈ normSegsList (!isAbsolutePath d) (splitSlash d.data) ++
      splitSlash rel1.data, '/' ∉ s := by
    intro s hs
    rcases List.mem_append.mp hs with h | h
    · exact (hSD s h).2
    · exact splitSlash_slash_free rel1.data s h
  have hfree2 : ∀ s ∈ normSegsList (!isAbsolutePath d) (splitSlash d.data) ++
      splitSlash rel2.data, '/' ∉ s := by
    intro s hs
    rcases List.mem_append.mp hs with h | h
    · exact (hSD s h).2
    · exact splitSlash_slash_free rel2.data s h
  have hsne1 : normSegsList (!isAbsolutePath d) (splitSlash d.data) ++
      splitSlash rel1.data ≠ [] := by
    intro h
    exact splitSlash_ne_nil rel1.data (List.append_eq_nil.mp h).2
  have hsne2 : normSegsList (!isAbsolutePath d) (splitSlash d.data) ++
      splitSlash rel2.data ≠ [] := by
    intro h
    exact splitSlash_ne_nil rel2.data (List.append_eq_nil.mp h).2
  have hsegs : normSegsList (!isAbsolutePath d) (splitSlash d.data) ++
      splitSlash rel1.data =
      normSegsList (!isAbsolutePath d) (splitSlash d.data) ++ splitSlash rel2.data := by
    rw [← splitSlash_joinSegs _ hsne1 hfree1, ← splitSlash_joinSegs _ hsne2 hfree2, hcore]
  have hss := List.append_cancel_left hsegs
  apply String.ext
  rw [← joinSegs_splitSlash rel1.data, ← joinSegs_splitSlash rel2.data, hss]

/-- A well-formed variant code (a locale or theme string): non-empty
and free of `.` and `/`. -/
def goodCode (s : String) : Prop :=
  s ≠ "" ∧ '.' ∉ s.data ∧ '/' ∉ s.data

instance goodCode_decidable (s : String) : Decidable (goodCode s) := by
  unfold goodCode
  infer_instance

theorem slash_not_mem_suffix (cfg : Config) (t l : String)
    (ht : '/' ∉ t.data) (hl : '/' ∉ l.data) :
    '/' ∉ (themeSuffix cfg t).data ++ (localeSuffix cfg l).data := by
  intro hmem
  rcases List.mem_append.mp hmem with h | h
  · unfold themeSuffix at h
    by_cases hc : t = cfg.default_theme
    · simp [hc] at h
    · rw [if_neg hc] at h
      simp only [String.data_append] at h
      rcases List.mem_append.mp h with h' | h'
      · simp at h'
      · exact ht h'
  · unfold localeSuffix at h
    by_cases hc : l = cfg.default_locale
    · simp [hc] at h
    · rw [if_neg hc] at h
      simp only [String.data_append] at h
      rcases List.mem_append.mp h with h' | h'
      · simp at h'
      · exact hl h'

theorem base_segment_inj (r1 r2 : String) (s1 s2 : List Char)
    (h1 : r1.data.head? = some '/') (h2 : r2.data.head? = some '/')
    (hs1 : '/' ∉ s1) (hs2 : '/' ∉ s2)
    (h : (outputFile r1).data ++ s1 = (outputFile r2).data ++ s2) :
    r1 = r2 ∧ s1 = s2 := by
  have hidx : '/' ∉ ("index" : String).data := by decide
  by_cases hr1 : r1 = "/" <;> by_cases hr2 : r2 = "/"
  · subst hr1
    rw [hr2]
    exact ⟨rfl, List.append_cancel_left (hr2 ▸ h)⟩
  · have hof1 : outputFile r1 = "index" := by rw [outputFile, if_pos hr1]
    have hof2 : outputFile r2 = stripLeadingSlash r2 ++ "/index" := by
      rw [outputFile, if_neg hr2]
    rw [hof1, hof2, String.data_append] at h
    have hmem : '/' ∈ ("index" : String).data ++ s1 := by
      rw [h, List.append_assoc]
      refine List.mem_append_right _ (List.mem_append_left _ ?_)
      decide
    rcases List.mem_append.mp hmem with hmem' | hmem'
    · exact absurd hmem' hidx
    · exact absurd hmem' hs1
  · have hof1 : outputFile r1 = stripLeadingSlash r1 ++ "/index" := by
      rw [outputFile, if_neg hr1]
    have hof2 : outputFile r2 = "index" := by rw [outputFile, if_pos hr2]
    rw [hof1, hof2, String.data_append] at h
    have hmem : '/' ∈ ("index" : String).data ++ s2 := by
      rw [← h, List.append_assoc]
      refine List.mem_append_right _ (List.mem_append_left _ ?_)
      decide
    rcases List.mem_append.mp hmem with hmem' | hmem'
    · exact absurd hmem' hidx
    · exact absurd hmem' hs2
  · have hof1 : outputFile r1 = stripLeadingSlash r1 ++ "/index" := by
      rw [outputFile, if_neg hr1]
    have hof2 : outputFile r2 = stripLeadingSlash r2 ++ "/index" := by
      rw [outputFile, if_neg hr2]
    rw [hof1, hof2, String.data_append, String.data_append] at h
    have hform : ∀ (r : String) (s : List Char),
        ((stripLeadingSlash r).data ++ ("/index" : String).data) ++ s =
          (stripLeadingSlash r).data ++ ('/' :: (("index" : String).data ++ s)) := by
      intro r s
      have : ("/index" : String).data = '/' :: ("index" : String).data := rfl
      rw [this, List.append_assoc, List.cons_append]
    rw [hform, hform] at h
    have hfree : ∀ s : List Char, '/' ∉ s → '/' ∉ ("index" : String).data ++ s := by
      intro s hs hmem
      rcases List.mem_append.mp hmem with h' | h'
      · exact absurd h' hidx
      · exact absurd h' hs
    obtain ⟨hstrip, hrest⟩ := last_sep_split '/' _ _ _ _ (hfree s1 hs1) (hfree s2 hs2) h
    have hs12 : s1 = s2 := List.append_cancel_left hrest
    refine ⟨?_, hs12⟩
    cases hd1 : r1.data with
    | nil => rw [hd1] at h1; simp at h1
    | cons c1 tl1 =>
      cases hd2 : r2.data with
      | nil => rw [hd2] at h2; simp at h2
      | cons c2 tl2 =>
        rw [hd1] at h1
        rw [hd2] at h2
        simp only [List.head?_cons, Option.some.injEq] at h1 h2
        have e1 : (stripLeadingSlash r1).data = tl1 := by
          unfold stripLeadingSlash
          rw [hd1, if_pos (by rw [List.head?_cons, h1])]
          rfl
        have e2 : (stripLeadingSlash r2).data = tl2 := by
          unfold stripLeadingSlash
          rw [hd2, if_pos (by rw [List.head?_cons, h2])]
          rfl
        apply String.ext
        rw [hd1, hd2, h1, h2]
        rw [e1, e2] at hstrip
        rw [hstrip]

theorem suffix_pair_inj (cfg : Config) (l1 t1 l2 t2 : String)
    (hl1 : goodCode l1) (ht1 : goodCode t1) (hl2 : goodCode l2) (ht2 : goodCode t2)
    (hd1 : l1 ≠ cfg.default_locale → t2 ≠ cfg.default_theme → l1 ≠ t2)
    (hd2 : l2 ≠ cfg.default_locale → t1 ≠ cfg.default_theme → l2 ≠ t1)
    (h : (themeSuffix cfg t1).data ++ (localeSuffix cfg l1).data =
         (themeSuffix cfg t2).data ++ (localeSuffix cfg l2).data) :
    l1 = l2 ∧ t1 = t2 := by
  have hdot : ∀ x : String, (("." ++ x) : String).data = '.' :: x.data := by
    intro x
    rw [String.data_append]
    rfl
  have hemp : ("" : String).data = ([] : List Char) := rfl
  unfold themeSuffix localeSuffix at h
  by_cases e1 : t1 = cfg.default_theme <;> by_cases e2 : t2 = cfg.default_theme
  · rw [if_pos e1, if_pos e2, hemp] at h
    simp only [List.nil_append] at h
    by_cases f1 : l1 = cfg.default_locale <;> by_cases f2 : l2 = cfg.default_locale
    · exact ⟨f1.trans f2.symm, e1.trans e2.symm⟩
    · rw [if_pos f1, if_neg f2, hemp, hdot] at h
      simp at h
    · rw [if_neg f1, if_pos f2, hemp, hdot] at h
      simp at h
    · rw [if_neg f1, if_neg f2, hdot, hdot] at h
      simp only [List.cons.injEq, true_and] at h
      exact ⟨String.ext h, e1.trans e2.symm⟩
  · rw [if_pos e1, if_neg e2, hemp, hdot] at h
    simp only [List.nil_append] at h
    by_cases f1 : l1 = cfg.default_locale
    · rw [if_pos f1, hemp] at h
      simp at h
    · rw [if_neg f1, hdot, List.cons_append] at h
      simp only [List.cons.injEq, true_and] at h
      by_cases f2 : l2 = cfg.default_locale
      · rw [if_pos f2, hemp, List.append_nil] at h
        exact absurd (String.ext h) (hd1 f1 e2)
      · rw [if_neg f2, hdot] at h
        have hmem : '.' ∈ l1.data := by
          rw [h]
          exact List.mem_append_right _ (List.mem_cons_self _ _)
        exact absurd hmem hl1.2.1
  · rw [if_neg e1, if_pos e2, hdot, hemp] at h
    simp only [List.nil_append, List.cons_append] at h
    by_cases f2 : l2 = cfg.default_locale
    · rw [if_pos f2, hemp] at h
      simp at h
    · rw [if_neg f2, hdot] at h
      simp only [List.cons.injEq, true_and] at h
      by_cases f1 : l1 = cfg.default_locale
      · rw [if_pos f1, hemp, List.append_nil] at h
        exact absurd (String.ext h).symm (hd2 f2 e1)
      · rw [if_neg f1, hdot] at h
        have hmem : '.' ∈ l2.data := by
          rw [← h]
          exact List.mem_append_right _ (List.mem_cons_self _ _)
        exact absurd hmem hl2.2.1
  · rw [if_neg e1, if_neg e2, hdot, hdot] at h
    simp only [List.cons_append, List.cons.injEq, true_and] at h
    by_cases f1 : l1 = cfg.default_locale <;> by_cases f2 : l2 = cfg.default_locale
    · rw [if_pos f1, if_pos f2, hemp, List.append_nil, List.append_nil] at h
      exact ⟨f1.trans f2.symm, String.ext h⟩
    · rw [if_pos f1, if_neg f2, hemp, List.append_nil, hdot] at h
      have hmem : '.' ∈ t1.data := by
        rw [h]
        exact List.mem_append_right _ (List.mem_cons_self _ _)
      exact absurd hmem ht1.2.1
    · rw [if_neg f1, if_pos f2, hemp, List.append_nil, hdot] at h
      have hmem : '.' ∈ t2.data := by
        rw [← h]
        exact List.mem_append_right _ (List.mem_cons_self _ _)
      exact absurd hmem ht2.2.1
    · rw [if_neg f1, if_neg f2, hdot, hdot] at h
      obtain ⟨hT, hL⟩ := first_sep_split '.' t1.data t2.data l1.data l2.data
        ht1.2.1 ht2.2.1 h
      exact ⟨String.ext hL, String.ext hT⟩

/-- A route as the program intends them: the root route, or a route
beginning with `/` all of whose further segments are non-empty and
neither `.` nor `..` — so `path.join`'s normalization leaves the
derived relative path untouched. -/
def goodRoute (r : String) : Prop :=
  r = "/" ∨ (r.data.head? = some '/' ∧
    ∀ seg ∈ (splitSlash r.data).tail, plainSeg seg)

instance goodRoute_decidable (r : String) : Decidable (goodRoute r) := by
  unfold goodRoute
  infer_instance

theorem plainSeg_of_head (seg : List Char) (c : Char) (hc : c ≠ '.')
    (h : seg.head? = some c) : plainSeg seg := by
  refine ⟨?_, ?_, ?_⟩ <;> intro he <;> rw [he] at h
  · simp at h
  · have h' : '.' = c := by simpa using h
    exact hc h'.symm
  · have h' : '.' = c := by simpa using h
    exact hc h'.symm

theorem outputRel_segs_plain (cfg : Config) (r l t : String)
    (hr : goodRoute r) (hlf : '/' ∉ l.data) (htf : '/' ∉ t.data) :
    ∀ seg ∈ splitSlash (outputRelPath cfg r l t).data, plainSeg seg := by
  have hS : '/' ∉ (themeSuffix cfg t).data ++ (localeSuffix cfg l).data :=
    slash_not_mem_suffix cfg t l htf hlf
  have hH : '/' ∉ (".html" : String).data := by decide
  have hidx : '/' ∉ ("index" : String).data := by decide
  have hTLH : '/' ∉ (themeSuffix cfg t).data ++
      ((localeSuffix cfg l).data ++ (".html" : String).data) := by
    intro hmem
    rcases List.mem_append.mp hmem with h | h
    · exact hS (List.mem_append_left _ h)
    rcases List.mem_append.mp h with h' | h'
    · exact hS (List.mem_append_right _ h')
    · exact hH h'
  rcases hr with hroot | ⟨hhead, hsegs⟩
  · subst hroot
    have hshape : (outputRelPath cfg "/" l t).data =
        ("index" : String).data ++ ((themeSuffix cfg t).data ++
          ((localeSuffix cfg l).data ++ (".html" : String).data)) := by
      unfold outputRelPath outputFile
      rw [if_pos rfl]
      simp [String.data_append]
    have hfree : '/' ∉ (outputRelPath cfg "/" l t).data := by
      rw [hshape]
      intro hmem
      rcases List.mem_append.mp hmem with h | h
      · exact hidx h
      · exact hTLH h
    intro seg hseg
    rw [splitSlash_single _ hfree, List.mem_singleton] at hseg
    subst hseg
    refine plainSeg_of_head _ 'i' (by decide) ?_
    rw [hshape]
    rfl
  · have hrne : r ≠ "/" := by
      intro h
      subst h
      exact (hsegs [] (by decide)).1 rfl
    have hshape : (outputRelPath cfg r l t).data =
        (stripLeadingSlash r).data ++ '/' :: (("index" : String).data ++
          ((themeSuffix cfg t).data ++
            ((localeSuffix cfg l).data ++ (".html" : String).data))) := by
      unfold outputRelPath outputFile
      rw [if_neg hrne]
      simp [String.data_append]
    have hlastfree : '/' ∉ ("index" : String).data ++
        ((themeSuffix cfg t).data ++
          ((localeSuffix cfg l).data ++ (".html" : String).data)) := by
      intro hmem
      rcases List.mem_append.mp hmem with h | h
      · exact hidx h
      · exact hTLH h
    have hsplittail : splitSlash ((stripLeadingSlash r).data) =
        (splitSlash r.data).tail := by
      cases hd : r.data with
      | nil =>
        rw [hd] at hhead
        simp at hhead
      | cons c tl =>
        have hc : c = '/' := by
          rw [hd] at hhead
          simpa using hhead
        subst hc
        have hstrip : (stripLeadingSlash r).data = tl := by
          unfold stripLeadingSlash
          rw [if_pos (by rw [hd]; rfl), hd]
          rfl
        rw [hstrip]
        cases hs : splitSlash tl with
        | nil => exact absurd hs (splitSlash_ne_nil tl)
        | cons s ss =>
          rw [splitSlash_cons_eq '/' tl s ss hs, if_pos rfl]
          rfl
    intro seg hseg
    rw [hshape, splitSlash_append_slash, splitSlash_single _ hlastfree,
      hsplittail] at hseg
    rcases List.mem_append.mp hseg with h | h
    · exact hsegs seg h
    · rw [List.mem_singleton.mp h]
      exact plainSeg_of_head _ 'i' (by decide) rfl

/-- Claim C1 (amended): with a non-empty output root, over any
configuration whose routes are the root route or begin with `/` with
all segments non-empty and none `.` or `..`, and whose locale and
theme codes are non-empty and free of `.` and `/`, with no code both a
non-default locale and a non-default theme, the output-path map —
normalizing `path.join` included — is injective on the route × locale
× theme task space: no two distinct task triples share an output file
path; and the (default locale, default theme) pair always yields the
unsuffixed path `{base}.html` joined under the root. -/
theorem output_path_injective (distDir : String) (cfg : Config)
    (hdist : distDir ≠ "")
    (hroutes : ∀ r ∈ cfg.routes, goodRoute r)
    (hloc : ∀ l ∈ cfg.locales, goodCode l)
    (hthm : ∀ t ∈ cfg.themes, goodCode t)
    (hdisj : ∀ s ∈ cfg.locales, s ∈ cfg.themes →
      s = cfg.default_locale ∨ s = cfg.default_theme) :
    (∀ r1 l1 t1 r2 l2 t2,
      r1 ∈ cfg.routes → l1 ∈ cfg.locales → t1 ∈ cfg.themes →
      r2 ∈ cfg.routes → l2 ∈ cfg.locales → t2 ∈ cfg.themes →
      outputPath distDir cfg r1 l1 t1 = outputPath distDir cfg r2 l2 t2 →
      r1 = r2 ∧ l1 = l2 ∧ t1 = t2) ∧
    (∀ r, outputPath distDir cfg r cfg.default_locale cfg.default_theme =
      joinPaths distDir (outputFile r ++ ".html")) := by
  constructor
  · intro r1 l1 t1 r2 l2 t2 hr1 hl1 ht1 hr2 hl2 ht2 heq
    have hgl1 := hloc l1 hl1
    have hgt1 := hthm t1 ht1
    have hgl2 := hloc l2 hl2
    have hgt2 := hthm t2 ht2
    have hplain1 := outputRel_segs_plain cfg r1 l1 t1 (hroutes r1 hr1)
      hgl1.2.2 hgt1.2.2
    have hplain2 := outputRel_segs_plain cfg r2 l2 t2 (hroutes r2 hr2)
      hgl2.2.2 hgt2.2.2
    have hrel : outputRelPath cfg r1 l1 t1 = outputRelPath cfg r2 l2 t2 :=
      joinPaths_cancel distDir _ _ hdist hplain1 hplain2 heq
    have hhead : ∀ r ∈ cfg.routes, r.data.head? = some '/' := by
      intro r hr
      rcases hroutes r hr with h | h
      · rw [h]
        rfl
      · exact h.1
    have hdata := congrArg String.data hrel
    simp only [outputRelPath, String.data_append, List.append_assoc] at hdata
    have hassoc : ∀ (a t l H : List Char), a ++ (t ++ (l ++ H)) = (a ++ (t ++ l)) ++ H := by
      intro a t l H
      simp [List.append_assoc]
    rw [hassoc, hassoc] at hdata
    have hM := List.append_cancel_right hdata
    obtain ⟨hre, hsuf⟩ := base_segment_inj r1 r2 _ _
      (hhead r1 hr1) (hhead r2 hr2)
      (slash_not_mem_suffix cfg t1 l1 hgt1.2.2 hgl1.2.2)
      (slash_not_mem_suffix cfg t2 l2 hgt2.2.2 hgl2.2.2) hM
    have hd1 : l1 ≠ cfg.default_locale → t2 ≠ cfg.default_theme → l1 ≠ t2 := by
      intro hne1 hne2 heq12
      have hboth : l1 ∈ cfg.themes := by rw [heq12]; exact ht2
      rcases hdisj l1 hl1 hboth with h' | h'
      · exact hne1 h'
      · exact hne2 (by rw [← heq12]; exact h')
    have hd2 : l2 ≠ cfg.default_locale → t1 ≠ cfg.default_theme → l2 ≠ t1 := by
      intro hne1 hne2 heq12
      have hboth : l2 ∈ cfg.themes := by rw [heq12]; exact ht1
      rcases hdisj l2 hl2 hboth with h' | h'
      · exact hne1 h'
      · exact hne2 (by rw [← heq12]; exact h')
    obtain ⟨hleq, hteq⟩ := suffix_pair_inj cfg l1 t1 l2 t2 hgl1 hgt1 hgl2 hgt2 hd1 hd2 hsuf
    exact ⟨hre, hleq, hteq⟩
  · intro r
    simp [outputPath, outputRelPath, themeSuffix, localeSuffix]

/-- Witness for C1: the amended injectivity theorem applied to
`sampleCfg` (routes `/`, `/about`; locales `tr`, `en`; themes `light`,
`dark`), here projected to the default-pair clause at `/about`. -/
theorem output_path_injective_witness :
    outputPath "dist" sampleCfg "/about" sampleCfg.default_locale sampleCfg.default_theme =
      joinPaths "dist" (outputFile "/about" ++ ".html") :=
  (output_path_injective "dist" sampleCfg (by decide) (by decide) (by decide)
    (by decide) (by decide)).2 "/about"

/-- Counterexample for C1 as stated: with the non-empty lists
`locales = ["tr", "en"]` (default `tr`) and `themes = ["light", "en"]`
(default `light`), the distinct task triples `("/", "tr", "en")` and
`("/", "en", "light")` collide on the same output path
`dist/index.en.html`. -/
theorem output_path_injective_counterexample :
    ¬ (∀ (distDir : String) (cfg : Config),
        cfg.locales ≠ [] → cfg.themes ≠ [] →
        ∀ r1 l1 t1 r2 l2 t2,
          r1 ∈ cfg.routes → l1 ∈ cfg.locales → t1 ∈ cfg.themes →
          r2 ∈ cfg.routes → l2 ∈ cfg.locales → t2 ∈ cfg.themes →
          outputPath distDir cfg r1 l1 t1 = outputPath distDir cfg r2 l2 t2 →
          r1 = r2 ∧ l1 = l2 ∧ t1 = t2) := by
  intro h
  have hcol := h "dist"
    { default_locale := "tr", default_theme := "light",
      locales := ["tr", "en"], themes := ["light", "en"], routes := ["/"] }
    (by decide) (by decide) "/" "tr" "en" "/" "en" "light"
    (by decide) (by decide) (by decide) (by decide) (by decide) (by decide)
    (by decide)
  exact absurd hcol (by decide)

end Prerender
